import Mathlib

/-!
# Verification of the trixo project scaffolder (martian56/trixo)

Shallow embedding, in Lean 4, of the core generation pipeline of the trixo
CLI scaffolder:

* `src/utils/index.ts` — project-name validation (`validateProjectName`,
  `getProjectNameError`);
* `src/generators/base.generator.ts` — `BaseGenerator.generate`, the
  template-copy filter, and `replacePlaceholders`;
* `src/generators/fastapi.ts` — `FastAPIGenerator.generateOptionalFiles`,
  `generateRequirementsTxt`, `toSnakeCase`, `toKebabCase`;
* `src/config/python-options.ts` — the `PYTHON_OPTIONS` catalog;
* `src/generators/registry.ts` — `getGenerator` / `hasGenerator`.

TypeScript strings are modelled as Lean `String` (operating on `String.data`,
the list of characters; the sources only manipulate ASCII text, where JS
UTF-16 code-unit operations and Lean `Char` operations agree).  JS boolean
option values that may be `true`, `false` or absent (`undefined`) are
modelled as `Option Bool`.  File-system effects are modelled by explicit
lists of written paths / `(path, content)` pairs, and fallible I/O by
explicit error oracles, mirroring the `async`/`throw` control flow of the
sources.
-/

namespace Trixo

/-! ## JS truthiness for option values

In the TS sources an option value read from the `ProjectOptions` map is
`boolean | undefined`.  `truthy o` models the JS truthiness test
(`if (opts.x)`), `notFalse o` models the `opts.x !== false` test. -/

def truthy : Option Bool → Bool
  | some b => b
  | none => false

def notFalse : Option Bool → Bool
  | some b => b
  | none => true

/-! ## String helpers mirroring the JS string primitives -/

/-- Substring search on character lists: `listContainsSub sub l` is true iff
`sub` occurs (contiguously) in `l`.  Models JS `String.prototype.includes`. -/
def listContainsSub (sub : List Char) : List Char → Bool
  | [] => sub.isEmpty
  | c :: cs => sub.isPrefixOf (c :: cs) || listContainsSub sub cs

/-- JS `r.includes(sub)`. -/
def strContains (r sub : String) : Bool := listContainsSub sub.data r.data

/-- Code-unit comparison of two character lists; for the ASCII strings the
generator manipulates this is exactly the comparison used by the default JS
`Array.prototype.sort`. -/
def charListLe : List Char → List Char → Bool
  | [], _ => true
  | _ :: _, [] => false
  | a :: as, b :: bs =>
    if a.toNat < b.toNat then true
    else if b.toNat < a.toNat then false
    else charListLe as bs

def strLe (a b : String) : Bool := charListLe a.data b.data

/-- Insert a string into a list sorted by `strLe`. -/
def insertSorted (x : String) : List String → List String
  | [] => [x]
  | y :: ys => if strLe x y then x :: y :: ys else y :: insertSorted x ys

/-- Sorting a list of strings by code-unit order: models the default JS
`Array.prototype.sort` on the (deduplicated, hence distinct) entries. -/
def sortStrings (l : List String) : List String := l.foldr insertSorted []

/-- `Array.from(new Set(xs))`: keep the first occurrence of each element,
in order. -/
def jsDedupAux (seen : List String) : List String → List String
  | [] => []
  | x :: xs => if x ∈ seen then jsDedupAux seen xs else x :: jsDedupAux (x :: seen) xs

def jsDedup (l : List String) : List String := jsDedupAux [] l

/-! ## Project-name validation (`src/utils/index.ts`)

`validateProjectName` and `getProjectNameError` are embedded condition for
condition.  JS `name.trim()` removes leading and trailing whitespace;
`isJsWhitespace` is the JS whitespace set (restricted to the characters
relevant here; all its members behave identically for the claims). -/

def isJsWhitespace (c : Char) : Bool :=
  c == ' ' || c == '\t' || c == '\n' || c == '\r' ||
  c.toNat == 11 || c.toNat == 12 || c.toNat == 0xA0 || c.toNat == 0x1680 ||
  (0x2000 ≤ c.toNat && c.toNat ≤ 0x200A) ||
  c.toNat == 0x2028 || c.toNat == 0x2029 || c.toNat == 0x202F ||
  c.toNat == 0x205F || c.toNat == 0x3000 || c.toNat == 0xFEFF

/-- JS `name.trim()`. -/
def jsTrim (s : String) : String :=
  ⟨((s.data.dropWhile isJsWhitespace).reverse.dropWhile isJsWhitespace).reverse⟩

/-- The regex character class `[<>:"/\\|?*\x00-\x1f]` from the sources. -/
def isInvalidNameChar (c : Char) : Bool :=
  c == '<' || c == '>' || c == ':' || c == '"' || c == '/' || c == '\\' ||
  c == '|' || c == '?' || c == '*' || decide (c.toNat ≤ 0x1f)

/-- `invalidChars.test(name)`. -/
def hasInvalidChar (name : String) : Bool := name.data.any isInvalidNameChar

/-- The reserved Windows device names from the sources. -/
def reservedNames : List String :=
  ["CON", "PRN", "AUX", "NUL",
   "COM1", "COM2", "COM3", "COM4", "COM5", "COM6", "COM7", "COM8", "COM9",
   "LPT1", "LPT2", "LPT3", "LPT4", "LPT5", "LPT6", "LPT7", "LPT8", "LPT9"]

/-- JS `name.toUpperCase()` (ASCII; the reserved names are all ASCII). -/
def jsToUpper (s : String) : String := ⟨s.data.map Char.toUpper⟩

/-- `validateProjectName` from `src/utils/index.ts`. -/
def validateProjectName (name : String) : Bool :=
  if name == "" || jsTrim name == "" then false
  else if hasInvalidChar name then false
  else if reservedNames.contains (jsToUpper name) then false
  else true

/-- `getProjectNameError` from `src/utils/index.ts` (`none` = JS `null`). -/
def getProjectNameError (name : String) : Option String :=
  if name == "" || jsTrim name == "" then some "Project name cannot be empty"
  else if hasInvalidChar name then some "Project name contains invalid characters"
  else if reservedNames.contains (jsToUpper name) then some "Project name is a reserved name"
  else none

/-- The rejection predicate exactly as the claim states it: the name is empty
or whitespace-only, or contains a forbidden character (`/`, `:`, `*`, `\`,
`<`, `>`, `"`, `|`, `?`, or a control character in `0x00`–`0x1f`), or equals
a reserved Windows device name case-insensitively. -/
def claimBadName (name : String) : Prop :=
  (name = "" ∨ jsTrim name = "") ∨
  (∃ c ∈ name.data,
      c = '/' ∨ c = ':' ∨ c = '*' ∨ c = '\\' ∨ c = '<' ∨ c = '>' ∨
      c = '"' ∨ c = '|' ∨ c = '?' ∨ c.toNat ≤ 0x1f) ∨
  (∃ rn ∈ reservedNames, jsToUpper name = rn)

/-! ## Template-copy filter (`BaseGenerator.copyTemplate`) -/

/-- `path.basename` (posix): strip trailing separators, then take the part
after the last separator. -/
def basename (p : String) : String :=
  let l := p.data
  let trimmed := (l.reverse.dropWhile (· == '/')).reverse
  if trimmed.isEmpty then
    if l.isEmpty then "" else "/"
  else ⟨(trimmed.reverse.takeWhile (· != '/')).reverse⟩

/-- JS `s.startsWith(pre)`, as a character-list prefix test. -/
def jsStartsWith (s pre : String) : Bool := pre.data.isPrefixOf s.data

/-- The copy filter from `BaseGenerator.copyTemplate`:
`!basename.startsWith('.') || basename === '.gitignore'`
(`true` = copy the entry, `false` = exclude it). -/
def copyFilter (src : String) : Bool :=
  !jsStartsWith (basename src) "." || basename src == ".gitignore"

/-! ## Generator registry (`src/generators/registry.ts`) -/

/-- The generator classes registered in the sources. -/
inductive GeneratorId where
  | fastapi
  | express
deriving DecidableEq

/-- The registry key `` `${language}:${framework}` ``. -/
def generatorKey (language framework : String) : String :=
  language ++ ":" ++ framework

/-- The module-level `generatorMap` after the eager registrations
(`Language.PYTHON = 'python'`, `PythonFramework.FASTAPI = 'fastapi'`,
`Language.JAVASCRIPT = 'js'`, `JavaScriptFramework.EXPRESS = 'express'`).
The registry is mutable (`registerGenerator`), so lookups below are stated
over an arbitrary registry state `m`. -/
def registeredGenerators : List (String × GeneratorId) :=
  [(generatorKey "python" "fastapi", GeneratorId.fastapi),
   (generatorKey "js" "express", GeneratorId.express)]

/-- `getGenerator`: construct an instance of the registered class, or throw
`` `No generator found for ${language}:${framework}` ``. -/
def getGenerator (m : List (String × GeneratorId)) (language framework : String) :
    Except String GeneratorId :=
  match m.lookup (generatorKey language framework) with
  | some g => Except.ok g
  | none => Except.error ("No generator found for " ++ language ++ ":" ++ framework)

/-- `hasGenerator`: `generatorMap.has(key)`. -/
def hasGenerator (m : List (String × GeneratorId)) (language framework : String) : Bool :=
  (m.lookup (generatorKey language framework)).isSome

/-! ## The option catalog (`src/config/python-options.ts`) -/

/-- One entry of `PYTHON_OPTIONS` (TS interface `PythonOption`); `default?`
and `dependencies?` are optional fields. -/
structure PyOption where
  key : String
  name : String
  description : String
  defaultOn : Option Bool := none
  dependencies : Option (List String) := none

/-- `PYTHON_OPTIONS`, in insertion order (which `Object.values` preserves). -/
def PYTHON_OPTIONS : List PyOption :=
  [{ key := "orm", name := "ORM (SQLAlchemy)",
     description := "Add SQLAlchemy ORM for database operations",
     defaultOn := some false, dependencies := some ["sqlalchemy"] },
   { key := "migrations", name := "Database Migrations (Alembic)",
     description := "Add Alembic for database migrations",
     defaultOn := some false, dependencies := some ["alembic"] },
   { key := "docker", name := "Docker Support",
     description := "Add Dockerfile for containerization",
     defaultOn := some false },
   { key := "dockerCompose", name := "Docker Compose",
     description := "Add docker-compose.yml for multi-container setup",
     defaultOn := some false },
   { key := "tests", name := "Testing Framework (pytest)",
     description := "Add pytest for testing",
     defaultOn := some true, dependencies := some ["pytest", "pytest-asyncio", "httpx"] },
   { key := "envFiles", name := "Environment Files (.env)",
     description := "Add .env.example and environment configuration",
     defaultOn := some true, dependencies := some ["python-dotenv"] },
   { key := "prodConfig", name := "Production Configuration",
     description := "Add production-ready settings and configurations",
     defaultOn := some false },
   { key := "devConfig", name := "Development Configuration",
     description := "Add development settings and hot-reload",
     defaultOn := some true },
   { key := "linter", name := "Linter (ruff/flake8)",
     description := "Add code linting with ruff or flake8",
     defaultOn := some true, dependencies := some ["ruff"] },
   { key := "formatter", name := "Code Formatter (black)",
     description := "Add black for code formatting",
     defaultOn := some true, dependencies := some ["black"] },
   { key := "preCommit", name := "Pre-commit Hooks",
     description := "Add pre-commit hooks for code quality",
     defaultOn := some false, dependencies := some ["pre-commit"] },
   { key := "readme", name := "README Documentation",
     description := "Generate comprehensive README.md",
     defaultOn := some true },
   { key := "apiDocs", name := "API Documentation",
     description := "Add OpenAPI/Swagger documentation setup",
     defaultOn := some true },
   { key := "logging", name := "Structured Logging",
     description := "Add structured logging configuration",
     defaultOn := some true, dependencies := some ["structlog"] },
   { key := "monitoring", name := "Monitoring & Health Checks",
     description := "Add health check endpoints and monitoring",
     defaultOn := some false }]

/-- `getPythonOptions()` = `Object.values(PYTHON_OPTIONS)`. -/
def getPythonOptions : List PyOption := PYTHON_OPTIONS

/-! ## Project options (`ProjectOptions` in `src/types/index.ts`)

A valid option map for the FastAPI generator assigns a boolean (or nothing)
to each of the generator's declared available option keys; this is captured
as a structure with one `Option Bool` field per key of `PYTHON_OPTIONS`. -/

structure ProjectOptions where
  orm : Option Bool := none
  migrations : Option Bool := none
  docker : Option Bool := none
  dockerCompose : Option Bool := none
  tests : Option Bool := none
  envFiles : Option Bool := none
  prodConfig : Option Bool := none
  devConfig : Option Bool := none
  linter : Option Bool := none
  formatter : Option Bool := none
  preCommit : Option Bool := none
  readme : Option Bool := none
  apiDocs : Option Bool := none
  logging : Option Bool := none
  monitoring : Option Bool := none
deriving DecidableEq

/-- The map read `opts[key]` for a valid option map. -/
def optValue (opts : ProjectOptions) (key : String) : Option Bool :=
  if key == "orm" then opts.orm
  else if key == "migrations" then opts.migrations
  else if key == "docker" then opts.docker
  else if key == "dockerCompose" then opts.dockerCompose
  else if key == "tests" then opts.tests
  else if key == "envFiles" then opts.envFiles
  else if key == "prodConfig" then opts.prodConfig
  else if key == "devConfig" then opts.devConfig
  else if key == "linter" then opts.linter
  else if key == "formatter" then opts.formatter
  else if key == "preCommit" then opts.preCommit
  else if key == "readme" then opts.readme
  else if key == "apiDocs" then opts.apiDocs
  else if key == "logging" then opts.logging
  else if key == "monitoring" then opts.monitoring
  else none

/-! ## `FastAPIGenerator.generateRequirementsTxt` -/

/-- The base dependencies pushed first. -/
def baseRequirements : List String :=
  ["fastapi>=0.104.1", "uvicorn[standard]>=0.24.0", "pydantic-settings>=2.1.0"]

/-- The `for (const option of pythonOptions)` loop: for each option whose key
is truthy in `opts` and which declares a `dependencies` list, push each
dependency as `` `${dep}>=0.0.0` ``. -/
def optionDeps (opts : ProjectOptions) : List PyOption → List String
  | [] => []
  | o :: rest =>
    (if truthy (optValue opts o.key) && o.dependencies.isSome then
        (o.dependencies.getD []).map (fun d => d ++ ">=0.0.0")
      else []) ++ optionDeps opts rest

/-- The `requirements` array right before `Array.from(new Set(...)).sort()`:
base deps, the option loop, then the four conditional pushes guarded by
`includes` checks on the accumulated array. -/
def rawRequirements (opts : ProjectOptions) : List String :=
  let r0 := baseRequirements ++ optionDeps opts getPythonOptions
  let r1 := if notFalse opts.envFiles && !(r0.any (fun r => strContains r "python-dotenv")) then
      r0 ++ ["python-dotenv>=1.0.0"] else r0
  let r2 := if truthy opts.orm && !(r1.any (fun r => strContains r "sqlalchemy")) then
      r1 ++ ["sqlalchemy>=2.0.23"] else r1
  let r3 := if truthy opts.migrations && !(r2.any (fun r => strContains r "alembic")) then
      r2 ++ ["alembic>=1.12.1"] else r2
  let r4 := if notFalse opts.tests && !(r3.any (fun r => strContains r "pytest")) then
      r3 ++ ["pytest>=7.4.3", "pytest-asyncio>=0.21.1", "httpx>=0.25.2"] else r3
  r4

/-- `generateRequirementsTxt`, as the list of lines written to
`requirements.txt` (the file content is their `"\n"`-join plus a final
newline).  Mirrors the source: the accumulated `requirements` array, then
`Array.from(new Set(requirements)).sort()`. -/
def generateRequirementsTxt (opts : ProjectOptions) : List String :=
  sortStrings (jsDedup (rawRequirements opts))

/-- The package name of a `requirements.txt` line: the text before the first
`>=` (every generated line has the shape `name>=version`). -/
def pkgNameChars : List Char → List Char
  | [] => []
  | [c] => [c]
  | c :: d :: rest => if c == '>' && d == '=' then [] else c :: pkgNameChars (d :: rest)

def pkgName (r : String) : String := ⟨pkgNameChars r.data⟩

/-- The set (list) of package names in the generated manifest. -/
def manifestPackages (opts : ProjectOptions) : List String :=
  (generateRequirementsTxt opts).map pkgName

/-! ## `FastAPIGenerator.generateOptionalFiles` — written file paths

Each conditional routine writes a fixed set of files at fixed relative
paths under the target directory (the `formatter` routine appends to
`pyproject.toml`).  `generateOptionalFilesPaths` lists the write targets of
`generateOptionalFiles` in execution order: `requirements.txt` always, the
option-guarded routines, and the unconditional `app/main.py` and
`app/core/config.py` (the final `replacePlaceholders` pass rewrites files in
place and targets no new path). -/
def generateOptionalFilesPaths (opts : ProjectOptions) : List String :=
  ["requirements.txt"]
  ++ (if truthy opts.orm then
        ["app/db/models.py", "app/db/session.py", "app/db/__init__.py"] else [])
  ++ (if truthy opts.migrations then
        ["alembic.ini", "alembic/env.py", "alembic/script.py.mako"] else [])
  ++ (if truthy opts.docker then ["Dockerfile", ".dockerignore"] else [])
  ++ (if truthy opts.dockerCompose then ["docker-compose.yml"] else [])
  ++ (if truthy opts.tests then
        ["pytest.ini", "tests/conftest.py", "tests/test_main.py", "tests/__init__.py"] else [])
  ++ (if truthy opts.envFiles then [".env.example"] else [])
  ++ (if truthy opts.prodConfig then ["app/config/production.py"] else [])
  ++ (if truthy opts.devConfig then ["app/config/development.py"] else [])
  ++ (if truthy opts.linter then ["ruff.toml"] else [])
  ++ (if truthy opts.formatter then ["pyproject.toml"] else [])
  ++ (if truthy opts.preCommit then [".pre-commit-config.yaml"] else [])
  ++ (if truthy opts.logging then ["app/core/logging.py"] else [])
  ++ (if truthy opts.readme then ["README.md"] else [])
  ++ ["app/main.py", "app/core/config.py"]

/-! ## Normal form of the requirements list

`specEntries` is the raw requirements array expressed directly in terms of
the truthiness of the relevant option keys (the conditional-push guards
resolve: the `sqlalchemy`/`alembic` pushes never fire because the loop has
already added a line containing that name exactly when `orm`/`migrations`
is truthy, and the `python-dotenv`/`pytest` pushes fire exactly when the key
is not explicitly false but not truthy). -/
def specEntries (o mg t e li fo pc lg nt ne : Bool) : List String :=
  baseRequirements
  ++ (if o then ["sqlalchemy>=0.0.0"] else [])
  ++ (if mg then ["alembic>=0.0.0"] else [])
  ++ (if t then ["pytest>=0.0.0", "pytest-asyncio>=0.0.0", "httpx>=0.0.0"] else [])
  ++ (if e then ["python-dotenv>=0.0.0"] else [])
  ++ (if li then ["ruff>=0.0.0"] else [])
  ++ (if fo then ["black>=0.0.0"] else [])
  ++ (if pc then ["pre-commit>=0.0.0"] else [])
  ++ (if lg then ["structlog>=0.0.0"] else [])
  ++ (if ne && !e then ["python-dotenv>=1.0.0"] else [])
  ++ (if nt && !t then ["pytest>=7.4.3", "pytest-asyncio>=0.21.1", "httpx>=0.25.2"] else [])

/-- The dependency list an option key declares in the catalog. -/
def declaredDeps (key : String) : List String :=
  match getPythonOptions.find? (fun o => o.key == key) with
  | some o => o.dependencies.getD []
  | none => []

/-- "Every key enabled in `A` is enabled in `B`" (the subset relation of the
claim), over the FastAPI generator's available option keys. -/
abbrev optsSubset (A B : ProjectOptions) : Prop :=
  (truthy A.orm = true → truthy B.orm = true) ∧
  (truthy A.migrations = true → truthy B.migrations = true) ∧
  (truthy A.docker = true → truthy B.docker = true) ∧
  (truthy A.dockerCompose = true → truthy B.dockerCompose = true) ∧
  (truthy A.tests = true → truthy B.tests = true) ∧
  (truthy A.envFiles = true → truthy B.envFiles = true) ∧
  (truthy A.prodConfig = true → truthy B.prodConfig = true) ∧
  (truthy A.devConfig = true → truthy B.devConfig = true) ∧
  (truthy A.linter = true → truthy B.linter = true) ∧
  (truthy A.formatter = true → truthy B.formatter = true) ∧
  (truthy A.preCommit = true → truthy B.preCommit = true) ∧
  (truthy A.readme = true → truthy B.readme = true) ∧
  (truthy A.apiDocs = true → truthy B.apiDocs = true) ∧
  (truthy A.logging = true → truthy B.logging = true) ∧
  (truthy A.monitoring = true → truthy B.monitoring = true)

/-- An option map that sets no key explicitly to `false`: every key is
either enabled or absent.  This is the shape of every map the interactive
prompt actually produces (selected keys are set to `true`, unselected keys
are left out). -/
abbrev noExplicitFalse (P : ProjectOptions) : Prop :=
  P.orm ≠ some false ∧ P.migrations ≠ some false ∧ P.docker ≠ some false ∧
  P.dockerCompose ≠ some false ∧ P.tests ≠ some false ∧ P.envFiles ≠ some false ∧
  P.prodConfig ≠ some false ∧ P.devConfig ≠ some false ∧ P.linter ≠ some false ∧
  P.formatter ≠ some false ∧ P.preCommit ≠ some false ∧ P.readme ≠ some false ∧
  P.apiDocs ≠ some false ∧ P.logging ≠ some false ∧ P.monitoring ≠ some false

/-- The options map enabling exactly `orm` and `tests`, with every other
available option explicitly disabled. -/
def ormTestsOnly : ProjectOptions :=
  { orm := some true, migrations := some false, docker := some false,
    dockerCompose := some false, tests := some true, envFiles := some false,
    prodConfig := some false, devConfig := some false, linter := some false,
    formatter := some false, preCommit := some false, readme := some false,
    apiDocs := some false, logging := some false, monitoring := some false }

/-! ## Placeholder substitution (`BaseGenerator.replacePlaceholders`)

`content.replace(new RegExp(`{{key}}`, 'g'), value)` — for the keys in use
the regex has no metacharacters, so this is literal global replacement:
scan left to right, replace each non-overlapping occurrence, never rescan
the inserted value within the same pass. -/

/-- The literal-insertion core of one global-replace pass: `replAux lit v s`
replaces every left-to-right non-overlapping occurrence of `lit` in `s` by
the text `v` inserted verbatim.  This is the behavior of the full
`replAuxSub` below exactly when the replacement value contains no `$`
(`replAuxSub_eq_replAux`); the piece-level lemmas are proved against it. -/
def replAux (lit v : List Char) : List Char → List Char
  | [] => []
  | c :: cs =>
    if lit.isPrefixOf (c :: cs) then v ++ replAux lit v (cs.drop (lit.length - 1))
    else c :: replAux lit v cs
termination_by s => s.length
decreasing_by
  · simp only [List.length_drop, List.length_cons]
    omega
  · simp only [List.length_cons]
    omega

/-- ECMAScript `GetSubstitution` for a string replacement and a pattern with
no capture groups: `$$` inserts `$`, `$&` the matched text, `` $` `` (dollar
followed by the character 0x60) the part of the input before the match, `$'`
(dollar followed by 0x27) the part after it; any other `$` is literal (with
no capture groups `$1`…`$99` and `$<` are left as literal text too, which
the fall-through case reproduces). -/
def expandRepl (matched before after : List Char) : List Char → List Char
  | [] => []
  | [c] => [c]
  | c :: d :: rest =>
    if c = '$' then
      if d = '$' then '$' :: expandRepl matched before after rest
      else if d = '&' then matched ++ expandRepl matched before after rest
      else if d = Char.ofNat 96 then before ++ expandRepl matched before after rest
      else if d = Char.ofNat 39 then after ++ expandRepl matched before after rest
      else c :: expandRepl matched before after (d :: rest)
    else c :: expandRepl matched before after (d :: rest)

/-- `s.replace(new RegExp(lit, 'g'), val)` for a literal pattern `lit` with
no capture groups: scan the remaining input left to right, replace each
non-overlapping occurrence by `val` expanded through `GetSubstitution`
against the original input `orig` at the current position `pos` (the match
equals `lit`, `` $` `` refers to `orig.take pos`, `$'` to the rest after the
match), and never rescan inserted text. -/
def replAuxSub (lit val orig : List Char) (pos : Nat) : List Char → List Char
  | [] => []
  | c :: cs =>
    if lit.isPrefixOf (c :: cs) then
      expandRepl lit (orig.take pos) (orig.drop (pos + lit.length)) val ++
        replAuxSub lit val orig (pos + lit.length) (cs.drop (lit.length - 1))
    else c :: replAuxSub lit val orig (pos + 1) cs
termination_by s => s.length
decreasing_by
  · simp only [List.length_drop, List.length_cons]
    omega
  · simp only [List.length_cons]
    omega

/-- `content.replace(new RegExp(lit, 'g'), val)` with a string replacement:
global literal search with ECMAScript `$`-pattern expansion of the
replacement string. -/
def jsReplaceAll (lit val s : String) : String :=
  ⟨replAuxSub lit.data val.data s.data 0 s.data⟩

/-- A character list without the `$` character (such a replacement value is
inserted verbatim by `GetSubstitution`). -/
def dollarFree (l : List Char) : Bool := l.all (fun c => !(c == '$'))

/-- The `for (const [key, value] of Object.entries(replacements))` loop of
`replacePlaceholders`, applied to one file's content. -/
def substituteAll (repl : List (String × String)) (content : String) : String :=
  repl.foldl (fun acc kv => jsReplaceAll ("\x7b\x7b" ++ kv.1 ++ "\x7d\x7d") kv.2 acc) content

/-- `FastAPIGenerator.toSnakeCase`: insert `_` before each capital
(`/([A-Z])/g → '_$1'`), lowercase, strip one leading `_`, then map every
character outside `[a-z0-9_]` to `_`. -/
def toSnakeCase (s : String) : String :=
  let l1 := (s.data.map (fun c => if c.isUpper then ['_', c] else [c])).flatten
  let l2 := l1.map Char.toLower
  let l3 := match l2 with
    | '_' :: t => t
    | t => t
  ⟨l3.map (fun c => if c.isLower || c.isDigit || c == '_' then c else '_')⟩

/-- `FastAPIGenerator.toKebabCase`: as `toSnakeCase` with `-`. -/
def toKebabCase (s : String) : String :=
  let l1 := (s.data.map (fun c => if c.isUpper then ['-', c] else [c])).flatten
  let l2 := l1.map Char.toLower
  let l3 := match l2 with
    | '-' :: t => t
    | t => t
  ⟨l3.map (fun c => if c.isLower || c.isDigit || c == '-' then c else '-')⟩

/-- The replacement map `generateOptionalFiles` passes to
`replacePlaceholders`, in `Object.entries` (insertion) order. -/
def replacementsFor (name : String) : List (String × String) :=
  [("projectName", name),
   ("projectNameSnake", toSnakeCase name),
   ("projectNameKebab", toKebabCase name)]

/-- The recognized placeholder keys. -/
def recognizedKeys : List String :=
  ["projectName", "projectNameSnake", "projectNameKebab"]

/-- The delimited token for a key: `{{key}}`. -/
def tokenOf (k : List Char) : List Char := '{' :: '{' :: (k ++ ['}', '}'])

/-! ### Token-structured file contents

To reason about substitution over a whole file, a content is presented as a
sequence of pieces: literal segments and `{{key}}` tokens.  A presentation
is *hygienic* when no segment contains `{{` or ends in `{` (so tokens are
well delimited) and every token key is brace-free. -/

inductive Piece where
  | seg : List Char → Piece
  | tok : List Char → Piece
deriving DecidableEq

def renderPiece : Piece → List Char
  | .seg s => s
  | .tok k => tokenOf k

def renderPieces (ps : List Piece) : List Char := (ps.map renderPiece).flatten

def braceFree (l : List Char) : Bool := l.all (fun c => !(c == '{') && !(c == '}'))

def noDoubleBrace : List Char → Bool
  | [] => true
  | [_] => true
  | a :: b :: t => !(a == '{' && b == '{') && noDoubleBrace (b :: t)

def pieceOk : Piece → Bool
  | .seg s => noDoubleBrace s && !(s.getLast? == some '{')
  | .tok k => braceFree k

def hygienic (ps : List Piece) : Bool := ps.all pieceOk

/-- The effect of one replace pass on one piece: the token for key `a`
becomes the literal segment `v`; everything else is untouched. -/
def substPiece (a v : List Char) : Piece → Piece
  | .seg s => .seg s
  | .tok k => if k = a then .seg v else .tok k

/-- The effect of the whole replacement map on the pieces. -/
def substPieces (repl : List (String × String)) (ps : List Piece) : List Piece :=
  repl.foldl (fun ps kv => ps.map (substPiece kv.1.data kv.2.data)) ps

/-- The combined effect of the FastAPI replacement map on one piece: each
recognized token becomes its resolved value, every other piece (segments,
unrecognized tokens) is untouched. -/
def applyReplacements (name : String) : Piece → Piece
  | .seg s => .seg s
  | .tok k =>
    if k = "projectName".data then .seg name.data
    else if k = "projectNameSnake".data then .seg (toSnakeCase name).data
    else if k = "projectNameKebab".data then .seg (toKebabCase name).data
    else .tok k

/-! ## `BaseGenerator.generate` — precondition checks and I/O failures

`generate` resolves the template path, throws if the template directory is
missing, throws if the target directory already exists, and only then
creates the target, copies the template (through the dotfile filter) and
invokes `generateOptionalFiles`.  `generateRun` returns the file paths
written during the run together with the surfaced error (`none` =
success). -/
def generateRun (templateExists targetExists : Bool) (templatePath targetPathArg : String)
    (templateFiles : List String) (opts : ProjectOptions) : List String × Option String :=
  if templateExists = false then ([], some ("Template not found: " ++ templatePath))
  else if targetExists = true then
    ([], some ("Directory " ++ targetPathArg ++ " already exists"))
  else (templateFiles.filter copyFilter ++ generateOptionalFilesPaths opts, none)

/-- The per-file `try/catch` body of `replacePlaceholders`: read the file,
apply every replacement, write it back; *any* error — from the read or from
the write — is caught and the file is skipped (`continue`).  `readErr` and
`writeErr` are per-path I/O failure oracles; on a failure the file keeps its
previous content on disk. -/
def replacePlaceholdersPass (readErr writeErr : String → Option String)
    (repl : List (String × String)) (files : List (String × String)) :
    List (String × String) :=
  files.map (fun f =>
    match readErr f.1 with
    | some _ => f
    | none =>
      match writeErr f.1 with
      | some _ => f
      | none => (f.1, substituteAll repl f.2))

/-- The first conditional-file write that fails, in execution order (the
first rejected `await` aborts `generateOptionalFiles`). -/
def firstWriteError (writeErr : String → Option String) : List String → Option String
  | [] => none
  | p :: ps =>
    match writeErr p with
    | some e => some e
    | none => firstWriteError writeErr ps

/-- `generate` with fallible I/O.  `copyErr`: error thrown by the template
copy; `writeErr`: per-path failures of the conditional-file writes;
`substReadErr`/`substWriteErr`: per-path failures inside the substitution
pass (caught there); `files`: the target tree (path, content) after the
copy and conditional writes.  An uncaught rejection propagates out of
`generate`; the substitution pass never rejects. -/
def generateFallible (templateExists targetExists : Bool) (templatePath targetPathArg : String)
    (copyErr : Option String) (writeErr : String → Option String)
    (substReadErr substWriteErr : String → Option String)
    (files : List (String × String)) (repl : List (String × String))
    (opts : ProjectOptions) : Except String (List (String × String)) :=
  if templateExists = false then Except.error ("Template not found: " ++ templatePath)
  else if targetExists = true then
    Except.error ("Directory " ++ targetPathArg ++ " already exists")
  else
    match copyErr with
    | some e => Except.error e
    | none =>
      match firstWriteError writeErr (generateOptionalFilesPaths opts) with
      | some e => Except.error e
      | none => Except.ok (replacePlaceholdersPass substReadErr substWriteErr repl files)

theorem notFalse_of_truthy {o : Option Bool} (h : truthy o = true) : notFalse o = true := by
  cases o with
  | none => rfl
  | some b => cases b <;> simp_all [truthy, notFalse]

theorem notFalse_eq_true_iff (o : Option Bool) : notFalse o = true ↔ o ≠ some false := by
  cases o with
  | none => simp [notFalse]
  | some b => cases b <;> simp [notFalse]

theorem mem_insertSorted (x y : String) (l : List String) :
    y ∈ insertSorted x l ↔ y = x ∨ y ∈ l := by
  induction l with
  | nil => simp [insertSorted]
  | cons z zs ih =>
    by_cases h : strLe x z = true
    · simp [insertSorted, h]
    · simp only [insertSorted, if_neg h, List.mem_cons, ih]
      tauto

theorem mem_sortStrings (y : String) (l : List String) :
    y ∈ sortStrings l ↔ y ∈ l := by
  induction l with
  | nil => simp [sortStrings]
  | cons x xs ih =>
    simp only [sortStrings, List.foldr_cons]
    rw [mem_insertSorted]
    simp only [sortStrings] at ih
    rw [ih, List.mem_cons]

theorem mem_jsDedupAux (y : String) (seen l : List String) :
    y ∈ jsDedupAux seen l ↔ y ∈ l ∧ y ∉ seen := by
  induction l generalizing seen with
  | nil => simp [jsDedupAux]
  | cons x xs ih =>
    by_cases h : x ∈ seen
    · rw [jsDedupAux, if_pos h, ih]
      simp only [List.mem_cons]
      constructor
      · rintro ⟨hy, hns⟩; exact ⟨Or.inr hy, hns⟩
      · rintro ⟨hy | hy, hns⟩
        · exact absurd (hy ▸ h) hns
        · exact ⟨hy, hns⟩
    · rw [jsDedupAux, if_neg h]
      simp only [List.mem_cons, ih]
      constructor
      · rintro (rfl | ⟨hy, hns⟩)
        · exact ⟨Or.inl rfl, h⟩
        · exact ⟨Or.inr hy, fun hc => hns (Or.inr hc)⟩
      · rintro ⟨hmem, hns⟩
        by_cases hyx : y = x
        · exact Or.inl hyx
        · rcases hmem with rfl | hy
          · exact absurd rfl hyx
          · refine Or.inr ⟨hy, fun hc => ?_⟩
            rcases hc with h' | h'
            · exact hyx h'
            · exact hns h'

theorem mem_jsDedup (y : String) (l : List String) : y ∈ jsDedup l ↔ y ∈ l := by
  rw [jsDedup, mem_jsDedupAux]
  simp

theorem hasInvalidChar_iff (name : String) :
    hasInvalidChar name = true ↔
      ∃ c ∈ name.data,
        c = '/' ∨ c = ':' ∨ c = '*' ∨ c = '\\' ∨ c = '<' ∨ c = '>' ∨
        c = '"' ∨ c = '|' ∨ c = '?' ∨ c.toNat ≤ 0x1f := by
  rw [hasInvalidChar, List.any_eq_true]
  constructor
  · rintro ⟨c, hc, hin⟩
    refine ⟨c, hc, ?_⟩
    simp only [isInvalidNameChar, Bool.or_eq_true, beq_iff_eq, decide_eq_true_eq] at hin
    tauto
  · rintro ⟨c, hc, hin⟩
    refine ⟨c, hc, ?_⟩
    simp only [isInvalidNameChar, Bool.or_eq_true, beq_iff_eq, decide_eq_true_eq]
    tauto

theorem reservedContains_iff (name : String) :
    reservedNames.contains (jsToUpper name) = true ↔
      ∃ rn ∈ reservedNames, jsToUpper name = rn := by
  rw [List.contains_iff_exists_mem_beq]
  simp

theorem claimBadName_iff (name : String) :
    claimBadName name ↔
      ((name == "" || jsTrim name == "") = true ∨ hasInvalidChar name = true ∨
        reservedNames.contains (jsToUpper name) = true) := by
  rw [claimBadName, hasInvalidChar_iff, reservedContains_iff]
  simp

/-- C6.  Project-name validation: `validateProjectName` accepts exactly the
names that are not empty/whitespace-only, contain no forbidden character
(`/ : * \ < > " | ?` or a control character `0x00`–`0x1f`), and are not a
reserved Windows device name (case-insensitively); on every rejected name
`getProjectNameError` returns a specific non-empty error message. -/
theorem projectName_validation_spec (name : String) :
    (validateProjectName name = true ↔ ¬ claimBadName name) ∧
    (claimBadName name → ∃ m, getProjectNameError name = some m ∧ m ≠ "") := by
  rw [claimBadName_iff]
  constructor
  · rw [validateProjectName]
    split_ifs with h1 h2 h3 <;> simp_all
  · intro hb
    rw [getProjectNameError]
    split_ifs with h1 h2 h3
    · exact ⟨_, rfl, by decide⟩
    · exact ⟨_, rfl, by decide⟩
    · exact ⟨_, rfl, by decide⟩
    · rcases hb with hb | hb | hb
      · exact absurd hb h1
      · exact absurd hb h2
      · exact absurd hb h3

/-- Witness for C6: `"CON"` is a reserved name, is rejected, and gets a
non-empty error message. -/
theorem projectName_validation_spec_witness :
    ∃ m, getProjectNameError "CON" = some m ∧ m ≠ "" :=
  (projectName_validation_spec "CON").2 (by rw [claimBadName_iff]; decide)

/-- C10.  The boolean validator and the error-message validator implement the
same acceptance predicate: `validateProjectName(n)` is `true` iff
`getProjectNameError(n)` is `null`. -/
theorem validators_agree (name : String) :
    validateProjectName name = true ↔ getProjectNameError name = none := by
  rw [validateProjectName, getProjectNameError]
  split_ifs <;> simp

/-- Witness for C10 at a concrete accepted name. -/
theorem validators_agree_witness : getProjectNameError "my-api" = none :=
  (validators_agree "my-api").mp (by decide)

/-- C7.  The template-copy filter excludes an entry iff its base name starts
with `'.'` and is not the literal exception `".gitignore"`; the test is a
prefix test on the base name. -/
theorem copyFilter_spec (src : String) :
    copyFilter src = false ↔
      (jsStartsWith (basename src) "." = true ∧ basename src ≠ ".gitignore") := by
  rw [copyFilter]
  cases h1 : jsStartsWith (basename src) "." <;>
    cases h2 : basename src == ".gitignore" <;> simp_all

/-- Witness for C7: `.env` is excluded, as its base name starts with a dot
and differs from `.gitignore`. -/
theorem copyFilter_spec_witness : copyFilter "templates/python/fastapi/.env" = false :=
  (copyFilter_spec "templates/python/fastapi/.env").mpr (by constructor <;> decide)

/-- C8.  `getGenerator` fails with the not-found error exactly when no
factory is registered under the key `"<language>:<framework>"`; when one is
registered it returns the registered generator, and these are the only two
outcomes (the not-found error is the only error condition). -/
theorem getGenerator_spec (m : List (String × GeneratorId)) (language framework : String) :
    (getGenerator m language framework =
        Except.error ("No generator found for " ++ language ++ ":" ++ framework) ↔
      m.lookup (generatorKey language framework) = none) ∧
    (∀ g, m.lookup (generatorKey language framework) = some g →
      getGenerator m language framework = Except.ok g) ∧
    (hasGenerator m language framework = true ↔
      ∃ g, getGenerator m language framework = Except.ok g) := by
  rw [getGenerator, hasGenerator]
  cases h : m.lookup (generatorKey language framework) <;> simp [getGenerator, h]

/-- Witness for C8: in the registry as initialized by the sources,
`python`/`fastapi` is registered and instantiates the FastAPI generator. -/
theorem getGenerator_spec_witness :
    getGenerator registeredGenerators "python" "fastapi" = Except.ok GeneratorId.fastapi :=
  (getGenerator_spec registeredGenerators "python" "fastapi").2.1 GeneratorId.fastapi (by decide)

theorem optionDeps_eval (opts : ProjectOptions) :
    optionDeps opts getPythonOptions =
      (if truthy opts.orm then ["sqlalchemy>=0.0.0"] else []) ++
      ((if truthy opts.migrations then ["alembic>=0.0.0"] else []) ++
       ((if truthy opts.tests then
           ["pytest>=0.0.0", "pytest-asyncio>=0.0.0", "httpx>=0.0.0"] else []) ++
        ((if truthy opts.envFiles then ["python-dotenv>=0.0.0"] else []) ++
         ((if truthy opts.linter then ["ruff>=0.0.0"] else []) ++
          ((if truthy opts.formatter then ["black>=0.0.0"] else []) ++
           ((if truthy opts.preCommit then ["pre-commit>=0.0.0"] else []) ++
            ((if truthy opts.logging then ["structlog>=0.0.0"] else []) ++ []))))))) := by
  simp [optionDeps, getPythonOptions, PYTHON_OPTIONS, optValue]

theorem rawRequirements_eval (opts : ProjectOptions) :
    rawRequirements opts =
      specEntries (truthy opts.orm) (truthy opts.migrations) (truthy opts.tests)
        (truthy opts.envFiles) (truthy opts.linter) (truthy opts.formatter)
        (truthy opts.preCommit) (truthy opts.logging)
        (notFalse opts.tests) (notFalse opts.envFiles) := by
  simp only [rawRequirements, optionDeps_eval]
  generalize truthy opts.orm = o
  generalize truthy opts.migrations = mg
  generalize truthy opts.tests = t
  generalize truthy opts.envFiles = e
  generalize truthy opts.linter = li
  generalize truthy opts.formatter = fo
  generalize truthy opts.preCommit = pc
  generalize truthy opts.logging = lg
  generalize notFalse opts.tests = nt
  generalize notFalse opts.envFiles = ne
  revert o mg t e li fo pc lg nt ne
  decide

theorem mem_ite_nil (c : Bool) (l : List String) (r : String) :
    r ∈ (if c then l else []) ↔ (c = true ∧ r ∈ l) := by
  cases c <;> simp

theorem mem_generateRequirementsTxt (opts : ProjectOptions) (r : String) :
    r ∈ generateRequirementsTxt opts ↔ r ∈ rawRequirements opts := by
  rw [generateRequirementsTxt, mem_sortStrings, mem_jsDedup]

theorem mem_specEntries (o mg t e li fo pc lg nt ne : Bool) (r : String) :
    r ∈ specEntries o mg t e li fo pc lg nt ne ↔
      (r ∈ baseRequirements ∨
       (o = true ∧ r = "sqlalchemy>=0.0.0") ∨
       (mg = true ∧ r = "alembic>=0.0.0") ∨
       (t = true ∧
         r ∈ (["pytest>=0.0.0", "pytest-asyncio>=0.0.0", "httpx>=0.0.0"] : List String)) ∨
       (e = true ∧ r = "python-dotenv>=0.0.0") ∨
       (li = true ∧ r = "ruff>=0.0.0") ∨
       (fo = true ∧ r = "black>=0.0.0") ∨
       (pc = true ∧ r = "pre-commit>=0.0.0") ∨
       (lg = true ∧ r = "structlog>=0.0.0") ∨
       ((ne && !e) = true ∧ r = "python-dotenv>=1.0.0") ∨
       ((nt && !t) = true ∧
         r ∈ (["pytest>=7.4.3", "pytest-asyncio>=0.21.1", "httpx>=0.25.2"] : List String))) := by
  simp only [specEntries, List.mem_append, mem_ite_nil, List.mem_singleton, or_assoc]

theorem mem_generateOptionalFilesPaths (opts : ProjectOptions) (p : String) :
    p ∈ generateOptionalFilesPaths opts ↔
      (p = "requirements.txt" ∨
       (truthy opts.orm = true ∧
         p ∈ (["app/db/models.py", "app/db/session.py", "app/db/__init__.py"] : List String)) ∨
       (truthy opts.migrations = true ∧
         p ∈ (["alembic.ini", "alembic/env.py", "alembic/script.py.mako"] : List String)) ∨
       (truthy opts.docker = true ∧
         p ∈ (["Dockerfile", ".dockerignore"] : List String)) ∨
       (truthy opts.dockerCompose = true ∧ p = "docker-compose.yml") ∨
       (truthy opts.tests = true ∧
         p ∈ (["pytest.ini", "tests/conftest.py", "tests/test_main.py",
               "tests/__init__.py"] : List String)) ∨
       (truthy opts.envFiles = true ∧ p = ".env.example") ∨
       (truthy opts.prodConfig = true ∧ p = "app/config/production.py") ∨
       (truthy opts.devConfig = true ∧ p = "app/config/development.py") ∨
       (truthy opts.linter = true ∧ p = "ruff.toml") ∨
       (truthy opts.formatter = true ∧ p = "pyproject.toml") ∨
       (truthy opts.preCommit = true ∧ p = ".pre-commit-config.yaml") ∨
       (truthy opts.logging = true ∧ p = "app/core/logging.py") ∨
       (truthy opts.readme = true ∧ p = "README.md") ∨
       p ∈ (["app/main.py", "app/core/config.py"] : List String)) := by
  simp only [generateOptionalFilesPaths, List.mem_append, mem_ite_nil,
    List.mem_singleton, or_assoc]

theorem mem_manifestPackages_of_spec (B : ProjectOptions) (r : String)
    (h : r ∈ specEntries (truthy B.orm) (truthy B.migrations) (truthy B.tests)
        (truthy B.envFiles) (truthy B.linter) (truthy B.formatter)
        (truthy B.preCommit) (truthy B.logging) (notFalse B.tests) (notFalse B.envFiles)) :
    pkgName r ∈ manifestPackages B := by
  rw [manifestPackages]
  refine List.mem_map_of_mem pkgName ?_
  rw [mem_generateRequirementsTxt, rawRequirements_eval]
  exact h

/-- C9.  `generateRequirementsTxt` runs unconditionally (`requirements.txt`
is a write target for every options map), and the manifest's package-name
set contains `pytest`, `pytest-asyncio` and `httpx` whenever the `tests` key
is anything other than explicitly `false` (including absent), and
`python-dotenv` whenever the `envFiles` key is anything other than
explicitly `false`; in particular an empty options map yields all four. -/
theorem manifest_default_on (opts : ProjectOptions) :
    "requirements.txt" ∈ generateOptionalFilesPaths opts ∧
    (opts.tests ≠ some false →
      "pytest" ∈ manifestPackages opts ∧
      "pytest-asyncio" ∈ manifestPackages opts ∧
      "httpx" ∈ manifestPackages opts) ∧
    (opts.envFiles ≠ some false → "python-dotenv" ∈ manifestPackages opts) := by
  refine ⟨(mem_generateOptionalFilesPaths opts _).mpr (Or.inl rfl), ?_, ?_⟩
  · intro ht
    have hnt : notFalse opts.tests = true := (notFalse_eq_true_iff _).mpr ht
    by_cases h : truthy opts.tests = true
    · refine ⟨?_, ?_, ?_⟩
      · have := mem_manifestPackages_of_spec opts "pytest>=0.0.0"
          ((mem_specEntries _ _ _ _ _ _ _ _ _ _ _).mpr (by simp [h]))
        rwa [show pkgName "pytest>=0.0.0" = "pytest" from by decide] at this
      · have := mem_manifestPackages_of_spec opts "pytest-asyncio>=0.0.0"
          ((mem_specEntries _ _ _ _ _ _ _ _ _ _ _).mpr (by simp [h]))
        rwa [show pkgName "pytest-asyncio>=0.0.0" = "pytest-asyncio" from by decide] at this
      · have := mem_manifestPackages_of_spec opts "httpx>=0.0.0"
          ((mem_specEntries _ _ _ _ _ _ _ _ _ _ _).mpr (by simp [h]))
        rwa [show pkgName "httpx>=0.0.0" = "httpx" from by decide] at this
    · have h' : truthy opts.tests = false := by
        revert h; cases truthy opts.tests <;> simp
      refine ⟨?_, ?_, ?_⟩
      · have := mem_manifestPackages_of_spec opts "pytest>=7.4.3"
          ((mem_specEntries _ _ _ _ _ _ _ _ _ _ _).mpr (by simp [hnt, h']))
        rwa [show pkgName "pytest>=7.4.3" = "pytest" from by decide] at this
      · have := mem_manifestPackages_of_spec opts "pytest-asyncio>=0.21.1"
          ((mem_specEntries _ _ _ _ _ _ _ _ _ _ _).mpr (by simp [hnt, h']))
        rwa [show pkgName "pytest-asyncio>=0.21.1" = "pytest-asyncio" from by decide] at this
      · have := mem_manifestPackages_of_spec opts "httpx>=0.25.2"
          ((mem_specEntries _ _ _ _ _ _ _ _ _ _ _).mpr (by simp [hnt, h']))
        rwa [show pkgName "httpx>=0.25.2" = "httpx" from by decide] at this
  · intro he
    have hne : notFalse opts.envFiles = true := (notFalse_eq_true_iff _).mpr he
    by_cases h : truthy opts.envFiles = true
    · have := mem_manifestPackages_of_spec opts "python-dotenv>=0.0.0"
        ((mem_specEntries _ _ _ _ _ _ _ _ _ _ _).mpr (by simp [h]))
      rwa [show pkgName "python-dotenv>=0.0.0" = "python-dotenv" from by decide] at this
    · have h' : truthy opts.envFiles = false := by
        revert h; cases truthy opts.envFiles <;> simp
      have := mem_manifestPackages_of_spec opts "python-dotenv>=1.0.0"
        ((mem_specEntries _ _ _ _ _ _ _ _ _ _ _).mpr (by simp [hne, h']))
      rwa [show pkgName "python-dotenv>=1.0.0" = "python-dotenv" from by decide] at this

/-- Witness for C9: with an empty options map (nothing selected), the
manifest still contains the test and dotenv packages. -/
theorem manifest_default_on_witness :
    "pytest" ∈ manifestPackages {} ∧ "python-dotenv" ∈ manifestPackages {} :=
  ⟨((manifest_default_on {}).2.1 (by decide)).1, (manifest_default_on {}).2.2 (by decide)⟩

/-- Counterexample to C1 as stated: the option maps `A = {}` and
`B = {tests: false}` are both valid for the FastAPI generator, every key
enabled in `A` is enabled in `B` (vacuously — `A` enables nothing), yet the
package-name set of the manifest generated under `B` is not a superset of
the one generated under `A`: `pytest` is present under `A` (the
tests-default push) but absent under `B`. -/
theorem generation_monotonic_counterexample :
    optsSubset {} { tests := some false } ∧
    "pytest" ∈ manifestPackages {} ∧
    "pytest" ∉ manifestPackages { tests := some false } := by
  refine ⟨by decide, by decide, by decide⟩

/-- C1 amended: for option maps that set no key explicitly to `false` (each
key is enabled or absent — the shape the interactive prompt produces), with
every key enabled in `A` enabled in `B`, the set of file paths written by
`generateOptionalFiles` under `B` is a superset of the set written under
`A`, and the package-name set of the generated `requirements.txt` under `B`
is a superset of that under `A`. -/
theorem generation_monotonic (A B : ProjectOptions)
    (_hA : noExplicitFalse A) (hB : noExplicitFalse B) (hAB : optsSubset A B) :
    (∀ p, p ∈ generateOptionalFilesPaths A → p ∈ generateOptionalFilesPaths B) ∧
    (∀ p, p ∈ manifestPackages A → p ∈ manifestPackages B) := by
  obtain ⟨s1, s2, s3, s4, s5, s6, s7, s8, s9, s10, s11, s12, s13, s14, s15⟩ := hAB
  constructor
  · intro p hp
    rw [mem_generateOptionalFilesPaths] at hp
    refine (mem_generateOptionalFilesPaths B p).mpr ?_
    rcases hp with h | ⟨c, hm⟩ | ⟨c, hm⟩ | ⟨c, hm⟩ | ⟨c, hm⟩ | ⟨c, hm⟩ | ⟨c, hm⟩ |
      ⟨c, hm⟩ | ⟨c, hm⟩ | ⟨c, hm⟩ | ⟨c, hm⟩ | ⟨c, hm⟩ | ⟨c, hm⟩ | ⟨c, hm⟩ | h
    · exact Or.inl h
    · simp [s1 c, hm]
    · simp [s2 c, hm]
    · simp [s3 c, hm]
    · simp [s4 c, hm]
    · simp [s5 c, hm]
    · simp [s6 c, hm]
    · simp [s7 c, hm]
    · simp [s8 c, hm]
    · simp [s9 c, hm]
    · simp [s10 c, hm]
    · simp [s11 c, hm]
    · simp [s14 c, hm]
    · simp [s12 c, hm]
    · simp [h]
  · intro p hp
    obtain ⟨r, hr, rfl⟩ := List.mem_map.mp hp
    rw [mem_generateRequirementsTxt, rawRequirements_eval, mem_specEntries] at hr
    have hBt : notFalse B.tests = true := (notFalse_eq_true_iff _).mpr hB.2.2.2.2.1
    have hBe : notFalse B.envFiles = true := (notFalse_eq_true_iff _).mpr hB.2.2.2.2.2.1
    rcases hr with h | ⟨c, hm⟩ | ⟨c, hm⟩ | ⟨c, hm⟩ | ⟨c, hm⟩ | ⟨c, hm⟩ | ⟨c, hm⟩ |
      ⟨c, hm⟩ | ⟨c, hm⟩ | ⟨c, hm⟩ | ⟨c, hm⟩
    · exact mem_manifestPackages_of_spec B r
        ((mem_specEntries _ _ _ _ _ _ _ _ _ _ _).mpr (by simp [h]))
    · exact mem_manifestPackages_of_spec B r
        ((mem_specEntries _ _ _ _ _ _ _ _ _ _ _).mpr (by simp [s1 c, hm]))
    · exact mem_manifestPackages_of_spec B r
        ((mem_specEntries _ _ _ _ _ _ _ _ _ _ _).mpr (by simp [s2 c, hm]))
    · exact mem_manifestPackages_of_spec B r
        ((mem_specEntries _ _ _ _ _ _ _ _ _ _ _).mpr (by simp [s5 c, hm]))
    · exact mem_manifestPackages_of_spec B r
        ((mem_specEntries _ _ _ _ _ _ _ _ _ _ _).mpr (by simp [s6 c, hm]))
    · exact mem_manifestPackages_of_spec B r
        ((mem_specEntries _ _ _ _ _ _ _ _ _ _ _).mpr (by simp [s9 c, hm]))
    · exact mem_manifestPackages_of_spec B r
        ((mem_specEntries _ _ _ _ _ _ _ _ _ _ _).mpr (by simp [s10 c, hm]))
    · exact mem_manifestPackages_of_spec B r
        ((mem_specEntries _ _ _ _ _ _ _ _ _ _ _).mpr (by simp [s11 c, hm]))
    · exact mem_manifestPackages_of_spec B r
        ((mem_specEntries _ _ _ _ _ _ _ _ _ _ _).mpr (by simp [s14 c, hm]))
    · subst hm
      by_cases he : truthy B.envFiles = true
      · have := mem_manifestPackages_of_spec B "python-dotenv>=0.0.0"
          ((mem_specEntries _ _ _ _ _ _ _ _ _ _ _).mpr (by simp [he]))
        rwa [show pkgName "python-dotenv>=0.0.0" = pkgName "python-dotenv>=1.0.0" from by decide]
          at this
      · have he' : truthy B.envFiles = false := by
          revert he; cases truthy B.envFiles <;> simp
        exact mem_manifestPackages_of_spec B "python-dotenv>=1.0.0"
          ((mem_specEntries _ _ _ _ _ _ _ _ _ _ _).mpr (by simp [hBe, he']))
    · by_cases ht : truthy B.tests = true
      · simp only [List.mem_cons, List.not_mem_nil, or_false] at hm
        rcases hm with rfl | rfl | rfl
        · have := mem_manifestPackages_of_spec B "pytest>=0.0.0"
            ((mem_specEntries _ _ _ _ _ _ _ _ _ _ _).mpr (by simp [ht]))
          rwa [show pkgName "pytest>=0.0.0" = pkgName "pytest>=7.4.3" from by decide] at this
        · have := mem_manifestPackages_of_spec B "pytest-asyncio>=0.0.0"
            ((mem_specEntries _ _ _ _ _ _ _ _ _ _ _).mpr (by simp [ht]))
          rwa [show pkgName "pytest-asyncio>=0.0.0" = pkgName "pytest-asyncio>=0.21.1"
            from by decide] at this
        · have := mem_manifestPackages_of_spec B "httpx>=0.0.0"
            ((mem_specEntries _ _ _ _ _ _ _ _ _ _ _).mpr (by simp [ht]))
          rwa [show pkgName "httpx>=0.0.0" = pkgName "httpx>=0.25.2" from by decide] at this
      · have ht' : truthy B.tests = false := by
          revert ht; cases truthy B.tests <;> simp
        exact mem_manifestPackages_of_spec B r
          ((mem_specEntries _ _ _ _ _ _ _ _ _ _ _).mpr (by simp [hBt, ht', hm]))

/-- Witness for C1 (amended): enabling `docker` on top of an empty selection
only grows the written file set and the manifest package set. -/
theorem generation_monotonic_witness :
    (∀ p, p ∈ generateOptionalFilesPaths {} →
        p ∈ generateOptionalFilesPaths { docker := some true }) ∧
    (∀ p, p ∈ manifestPackages {} → p ∈ manifestPackages { docker := some true }) :=
  generation_monotonic {} { docker := some true } (by decide) (by decide) (by decide)

/-- Counterexample to C2 as stated: for the options map
`{orm: true, tests: true}` (orm and tests enabled), the generated manifest
is *not* exactly the union of base, ORM and test dependencies —
`python-dotenv` is in the manifest (the `envFiles` default-on push) but in
none of those three dependency lists. -/
theorem requirements_exact_union_counterexample :
    truthy ({ orm := some true, tests := some true } : ProjectOptions).orm = true ∧
    truthy ({ orm := some true, tests := some true } : ProjectOptions).tests = true ∧
    "python-dotenv" ∈ manifestPackages { orm := some true, tests := some true } ∧
    "python-dotenv" ∉
      (baseRequirements.map pkgName ++ declaredDeps "orm" ++ declaredDeps "tests") := by
  refine ⟨by decide, by decide, by decide, by decide⟩

/-- C2 amended: for the options map enabling exactly `orm` and `tests` and
explicitly disabling every other option, `requirements.txt` is exactly the
deduplicated, lexicographically sorted union of the base dependencies and
the ORM and test options' declared dependency lists (each declared
dependency carrying the `>=0.0.0` constraint the code attaches), and the
output is strictly sorted (hence duplicate-free). -/
theorem requirements_exact_union_amended :
    generateRequirementsTxt ormTestsOnly =
      sortStrings (jsDedup (baseRequirements ++
        (declaredDeps "orm").map (fun d => d ++ ">=0.0.0") ++
        (declaredDeps "tests").map (fun d => d ++ ">=0.0.0"))) ∧
    List.Pairwise (fun a b => strLe a b = true ∧ a ≠ b)
      (generateRequirementsTxt ormTestsOnly) := by
  constructor <;> decide

theorem isPrefixOf_token_shape {a l : List Char}
    (h : (tokenOf a).isPrefixOf l = true) : ∃ t, l = '{' :: '{' :: t := by
  cases l with
  | nil => simp [tokenOf, List.isPrefixOf] at h
  | cons x xs =>
    cases xs with
    | nil => simp [tokenOf, List.isPrefixOf] at h
    | cons y ys =>
      refine ⟨ys, ?_⟩
      simp only [tokenOf, List.isPrefixOf, Bool.and_eq_true, beq_iff_eq] at h
      rw [← h.1, ← h.2.1]

theorem isPrefixOf_token_false_of_shape {a : List Char} {l : List Char}
    (h : ∀ t, l ≠ '{' :: '{' :: t) : (tokenOf a).isPrefixOf l = false := by
  cases hp : (tokenOf a).isPrefixOf l with
  | false => rfl
  | true =>
    obtain ⟨t, ht⟩ := isPrefixOf_token_shape hp
    exact absurd ht (h t)

theorem replAux_append_of_no_match (lit v : List Char) (s r : List Char)
    (h : ∀ i, i < s.length → lit.isPrefixOf (s.drop i ++ r) = false) :
    replAux lit v (s ++ r) = s ++ replAux lit v r := by
  induction s with
  | nil => simp
  | cons c cs ih =>
    have h0 : lit.isPrefixOf (c :: (cs ++ r)) = false := by
      simpa using h 0 (by simp)
    rw [List.cons_append, replAux, if_neg (by simp [h0])]
    rw [ih (fun i hi => by simpa using h (i + 1) (by simpa using Nat.succ_lt_succ hi))]
    rw [List.cons_append]

theorem contains_append_of_no_match (sub : List Char) (s r : List Char)
    (h : ∀ i, i < s.length → sub.isPrefixOf (s.drop i ++ r) = false) :
    listContainsSub sub (s ++ r) = listContainsSub sub r := by
  induction s with
  | nil => simp
  | cons c cs ih =>
    have h0 : sub.isPrefixOf (c :: (cs ++ r)) = false := by
      simpa using h 0 (by simp)
    rw [List.cons_append, listContainsSub, h0, Bool.false_or]
    exact ih (fun i hi => by simpa using h (i + 1) (by simpa using Nat.succ_lt_succ hi))

theorem noDoubleBrace_tail {c : Char} {cs : List Char}
    (h : noDoubleBrace (c :: cs) = true) : noDoubleBrace cs = true := by
  cases cs with
  | nil => rfl
  | cons d ds =>
    rw [noDoubleBrace, Bool.and_eq_true] at h
    exact h.2

theorem noDoubleBrace_drop {s : List Char} (i : Nat)
    (h : noDoubleBrace s = true) : noDoubleBrace (s.drop i) = true := by
  induction s generalizing i with
  | nil => simpa using h
  | cons c cs ih =>
    cases i with
    | zero => exact h
    | succ j =>
      rw [List.drop_succ_cons]
      exact ih j (noDoubleBrace_tail h)

theorem noDoubleBrace_head_pair {x y : Char} {t : List Char}
    (h : noDoubleBrace (x :: y :: t) = true) : ¬ (x = '{' ∧ y = '{') := by
  rw [noDoubleBrace, Bool.and_eq_true] at h
  rintro ⟨rfl, rfl⟩
  simp at h

theorem getLast?_drop_eq {s : List Char} {i : Nat} (h : s.drop i ≠ []) :
    s.getLast? = (s.drop i).getLast? := by
  conv_lhs => rw [← List.take_append_drop i s]
  exact List.getLast?_append_of_ne_nil _ h

/-- Inside a hygienic segment (no `{{`, not ending in `{`) no token match
can start, wherever the scan is and whatever follows the segment. -/
theorem seg_no_match (a s r : List Char)
    (h1 : noDoubleBrace s = true) (h2 : ¬ (s.getLast? == some '{') = true) :
    ∀ i, i < s.length → (tokenOf a).isPrefixOf (s.drop i ++ r) = false := by
  intro i hi
  apply isPrefixOf_token_false_of_shape
  intro t ht
  cases hd : s.drop i with
  | nil =>
    rw [List.drop_eq_nil_iff] at hd
    omega
  | cons x xs =>
    rw [hd] at ht
    cases xs with
    | nil =>
      simp only [List.cons_append, List.nil_append, List.cons.injEq] at ht
      apply h2
      rw [getLast?_drop_eq (i := i) (by rw [hd]; simp), hd]
      simp [ht.1]
    | cons y ys =>
      simp only [List.cons_append, List.cons.injEq] at ht
      have hnd := noDoubleBrace_drop i h1
      rw [hd] at hnd
      exact noDoubleBrace_head_pair hnd ⟨ht.1, ht.2.1⟩

theorem braceFree_mem {l : List Char} (h : braceFree l = true) {c : Char}
    (hc : c ∈ l) : c ≠ '{' ∧ c ≠ '}' := by
  rw [braceFree, List.all_eq_true] at h
  have := h c hc
  simp only [Bool.and_eq_true, Bool.not_eq_true', beq_eq_false_iff_ne, ne_eq] at this
  exact this

theorem prefix_mismatch_core (a : List Char) :
    ∀ (k : List Char), braceFree a = true → braceFree k = true → k ≠ a →
    ∀ r, (a ++ ['}', '}']).isPrefixOf ((k ++ ['}', '}']) ++ r) = false := by
  induction a with
  | nil =>
    intro k _ hk hne r
    cases k with
    | nil => exact absurd rfl hne
    | cons c k' =>
      have hc := braceFree_mem hk (List.mem_cons_self c k')
      simp only [List.nil_append, List.cons_append, List.isPrefixOf]
      rw [beq_false_of_ne (Ne.symm hc.2), Bool.false_and]
  | cons x a' ih =>
    intro k ha hk hne r
    have hx := braceFree_mem ha (List.mem_cons_self x a')
    cases k with
    | nil =>
      simp only [List.nil_append, List.cons_append, List.isPrefixOf]
      rw [beq_false_of_ne hx.2, Bool.false_and]
    | cons y k' =>
      by_cases hxy : x = y
      · subst hxy
        have ha' : braceFree a' = true := by
          rw [braceFree, List.all_eq_true] at ha ⊢
          exact fun c hc => ha c (List.mem_cons_of_mem _ hc)
        have hk' : braceFree k' = true := by
          rw [braceFree, List.all_eq_true] at hk ⊢
          exact fun c hc => hk c (List.mem_cons_of_mem _ hc)
        have hne' : k' ≠ a' := fun hcontra => hne (by rw [hcontra])
        simp only [List.cons_append, List.isPrefixOf, beq_self_eq_true, Bool.true_and]
        exact ih k' ha' hk' hne' r
      · simp only [List.cons_append, List.isPrefixOf]
        rw [beq_false_of_ne hxy, Bool.false_and]

/-- A token for key `a` never matches starting at the front of a rendered
token for a different (brace-free) key. -/
theorem prefix_mismatch (a k : List Char) (ha : braceFree a = true)
    (hk : braceFree k = true) (hne : k ≠ a) (r : List Char) :
    (tokenOf a).isPrefixOf (tokenOf k ++ r) = false := by
  simp only [tokenOf, List.cons_append, List.isPrefixOf, beq_self_eq_true, Bool.true_and]
  exact prefix_mismatch_core a k ha hk hne r

/-- Inside the rendering of a token for a different key no match for the
token of `a` can start, at any scan position. -/
theorem tok_no_match (a k r : List Char) (ha : braceFree a = true)
    (hk : braceFree k = true) (hne : k ≠ a) :
    ∀ i, i < (tokenOf k).length → (tokenOf a).isPrefixOf ((tokenOf k).drop i ++ r) = false := by
  intro i hi
  match i with
  | 0 => simpa using prefix_mismatch a k ha hk hne r
  | 1 =>
    apply isPrefixOf_token_false_of_shape
    intro t ht
    simp only [tokenOf, List.drop_succ_cons, List.drop_zero, List.cons_append,
      List.cons.injEq] at ht
    cases k with
    | nil => simp at ht
    | cons c k' =>
      have hc := braceFree_mem hk (List.mem_cons_self c k')
      simp only [List.cons_append, List.cons.injEq] at ht
      exact hc.1 ht.2.1
  | (j + 2) =>
    apply isPrefixOf_token_false_of_shape
    intro t ht
    have hlen : j < (k ++ ['}', '}']).length := by
      simp [tokenOf] at hi ⊢
      omega
    have hdrop : (tokenOf k).drop (j + 2) = (k ++ ['}', '}']).drop j := by
      simp [tokenOf]
    rw [hdrop] at ht
    cases hd : (k ++ ['}', '}']).drop j with
    | nil =>
      rw [List.drop_eq_nil_iff] at hd
      omega
    | cons x xs =>
      have hx : x ∈ k ++ ['}', '}'] := by
        have : x ∈ (k ++ ['}', '}']).drop j := by rw [hd]; exact List.mem_cons_self x xs
        exact List.drop_subset _ _ this
      have hxne : x ≠ '{' := by
        rcases List.mem_append.mp hx with hmem | hmem
        · exact (braceFree_mem hk hmem).1
        · simp only [List.mem_cons, List.not_mem_nil, or_false] at hmem
          rcases hmem with rfl | rfl <;> decide
      rw [hd] at ht
      simp only [List.cons_append, List.cons.injEq] at ht
      exact hxne ht.1

theorem replAux_nil (lit v : List Char) : replAux lit v [] = [] := by
  simp [replAux]

theorem replAux_token_head (lit v r : List Char) (hne : lit ≠ []) :
    replAux lit v (lit ++ r) = v ++ replAux lit v r := by
  cases lit with
  | nil => exact absurd rfl hne
  | cons c cs =>
    rw [List.cons_append, replAux, if_pos]
    · congr 1
      congr 1
      rw [List.length_cons, Nat.add_sub_cancel, List.drop_left]
    · rw [ List.isPrefixOf_iff_prefix]
      rw [← List.cons_append]
      exact List.prefix_append _ r

/-- A `$`-free replacement value is inserted verbatim by
`GetSubstitution`. -/
theorem expandRepl_of_no_dollar (matched before after : List Char) :
    ∀ (val : List Char), dollarFree val = true →
      expandRepl matched before after val = val
  | [], _ => rfl
  | [_], _ => rfl
  | c :: d :: rest, h => by
    have hc : ¬ c = '$' := by
      have := List.all_eq_true.mp h c (List.mem_cons_self _ _)
      simpa using this
    have h' : dollarFree (d :: rest) = true := by
      rw [dollarFree, List.all_cons, Bool.and_eq_true] at h
      exact h.2
    simp only [expandRepl]
    rw [if_neg hc]
    rw [expandRepl_of_no_dollar matched before after (d :: rest) h']

theorem replAuxSub_nil (lit val orig : List Char) (pos : Nat) :
    replAuxSub lit val orig pos [] = [] := by
  simp [replAuxSub]

/-- With a `$`-free replacement value, the full replace pass is the
literal-insertion pass, whatever the surrounding context. -/
theorem replAuxSub_eq_replAux (lit val orig : List Char)
    (hval : dollarFree val = true) :
    ∀ (s : List Char) (pos : Nat), replAuxSub lit val orig pos s = replAux lit val s := by
  have key : ∀ (n : Nat) (s : List Char), s.length ≤ n → ∀ pos,
      replAuxSub lit val orig pos s = replAux lit val s := by
    intro n
    induction n with
    | zero =>
      intro s hs pos
      have hnil : s = [] := List.length_eq_zero.mp (Nat.le_zero.mp hs)
      subst hnil
      rw [replAuxSub_nil, replAux_nil]
    | succ n ih =>
      intro s hs pos
      cases s with
      | nil => rw [replAuxSub_nil, replAux_nil]
      | cons c cs =>
        rw [List.length_cons] at hs
        by_cases hp : lit.isPrefixOf (c :: cs) = true
        · rw [replAuxSub, if_pos hp, replAux, if_pos hp,
            expandRepl_of_no_dollar _ _ _ val hval]
          congr 1
          apply ih
          rw [List.length_drop]
          omega
        · rw [replAuxSub, if_neg hp, replAux, if_neg hp]
          congr 1
          apply ih
          omega
  intro s pos
  exact key s.length s (Nat.le_refl _) pos

/-- A match at the head of the scan expands the replacement value against
the current context and continues past the match. -/
theorem replAuxSub_token_head (lit val orig : List Char) (pos : Nat) (r : List Char)
    (hne : lit ≠ []) :
    replAuxSub lit val orig pos (lit ++ r) =
      expandRepl lit (orig.take pos) (orig.drop (pos + lit.length)) val ++
        replAuxSub lit val orig (pos + lit.length) r := by
  cases lit with
  | nil => exact absurd rfl hne
  | cons c cs =>
    rw [List.cons_append, replAuxSub, if_pos]
    · congr 1
      congr 1
      rw [List.length_cons, Nat.add_sub_cancel, List.drop_left]
    · rw [ List.isPrefixOf_iff_prefix]
      rw [← List.cons_append]
      exact List.prefix_append _ r

theorem hygienic_cons {p : Piece} {ps : List Piece} (h : hygienic (p :: ps) = true) :
    pieceOk p = true ∧ hygienic ps = true := by
  rw [hygienic, List.all_cons, Bool.and_eq_true] at h
  exact h

theorem renderPieces_cons (p : Piece) (ps : List Piece) :
    renderPieces (p :: ps) = renderPiece p ++ renderPieces ps := by
  simp [renderPieces]

/-- One global-replace pass over a hygienic rendering replaces exactly the
tokens for the key, piece by piece. -/
theorem replAux_renderPieces (a v : List Char) (ha : braceFree a = true)
    (ps : List Piece) (hps : hygienic ps = true) :
    replAux (tokenOf a) v (renderPieces ps) = renderPieces (ps.map (substPiece a v)) := by
  induction ps with
  | nil => simp [renderPieces, replAux_nil]
  | cons p ps ih =>
    obtain ⟨hp, hps'⟩ := hygienic_cons hps
    have hrest := ih hps'
    cases p with
    | seg s =>
      rw [renderPieces_cons]
      simp only [renderPiece]
      rw [pieceOk, Bool.and_eq_true, Bool.not_eq_true'] at hp
      rw [replAux_append_of_no_match _ _ _ _
        (seg_no_match a s _ hp.1 (by simp [hp.2]))]
      rw [hrest, List.map_cons, renderPieces_cons]
      rfl
    | tok k =>
      rw [pieceOk] at hp
      by_cases hka : k = a
      · subst hka
        rw [renderPieces_cons]
        simp only [renderPiece]
        rw [replAux_token_head _ _ _ (by simp [tokenOf])]
        rw [hrest, List.map_cons, renderPieces_cons]
        simp [substPiece, renderPiece]
      · rw [renderPieces_cons]
        simp only [renderPiece]
        rw [replAux_append_of_no_match _ _ _ _ (tok_no_match a k _ ha hp hka)]
        rw [hrest, List.map_cons, renderPieces_cons]
        simp [substPiece, hka, renderPiece]

theorem braceFree_noDoubleBrace {v : List Char} (hv : braceFree v = true) :
    noDoubleBrace v = true := by
  induction v with
  | nil => rfl
  | cons c cs ih =>
    have hc := braceFree_mem hv (List.mem_cons_self c cs)
    have hcs : braceFree cs = true := by
      rw [braceFree, List.all_eq_true] at hv ⊢
      exact fun d hd => hv d (List.mem_cons_of_mem _ hd)
    cases cs with
    | nil => rfl
    | cons d ds =>
      rw [noDoubleBrace, Bool.and_eq_true]
      refine ⟨?_, ih hcs⟩
      simp [hc.1]

theorem braceFree_pieceOk_seg {v : List Char} (hv : braceFree v = true) :
    pieceOk (Piece.seg v) = true := by
  rw [pieceOk, Bool.and_eq_true, Bool.not_eq_true']
  refine ⟨braceFree_noDoubleBrace hv, ?_⟩
  cases hlast : v.getLast? with
  | none => rfl
  | some c =>
    have hc : c ∈ v := List.mem_of_mem_getLast? (by rw [hlast]; exact Option.mem_some_self c)
    have := (braceFree_mem hv hc).1
    simpa using this

theorem hygienic_map_substPiece (a v : List Char) (hv : braceFree v = true)
    {ps : List Piece} (hps : hygienic ps = true) :
    hygienic (ps.map (substPiece a v)) = true := by
  rw [hygienic, List.all_eq_true] at hps ⊢
  intro q hq
  obtain ⟨p, hp, rfl⟩ := List.mem_map.mp hq
  have hpo := hps p hp
  cases p with
  | seg s => exact hpo
  | tok k =>
    by_cases hka : k = a
    · subst hka
      rw [substPiece, if_pos rfl]
      exact braceFree_pieceOk_seg hv
    · rw [substPiece, if_neg hka]
      exact hpo

/-- If a token for `a` occurs nowhere among the (hygienic) pieces, it does
not occur in the rendered string at all. -/
theorem no_token_occurrence (a : List Char) (ha : braceFree a = true)
    (ps : List Piece) (hps : hygienic ps = true)
    (hno : ∀ k, Piece.tok k ∈ ps → k ≠ a) :
    listContainsSub (tokenOf a) (renderPieces ps) = false := by
  induction ps with
  | nil => simp [renderPieces, listContainsSub, tokenOf]
  | cons p ps ih =>
    obtain ⟨hp, hps'⟩ := hygienic_cons hps
    have hrest := ih hps' (fun k hk => hno k (List.mem_cons_of_mem _ hk))
    cases p with
    | seg s =>
      rw [renderPieces_cons]
      simp only [renderPiece]
      rw [pieceOk, Bool.and_eq_true, Bool.not_eq_true'] at hp
      rw [contains_append_of_no_match _ _ _
        (seg_no_match a s _ hp.1 (by simp [hp.2]))]
      exact hrest
    | tok k =>
      rw [pieceOk] at hp
      have hka : k ≠ a := hno k (List.mem_cons_self _ _)
      rw [renderPieces_cons]
      simp only [renderPiece]
      rw [contains_append_of_no_match _ _ _ (tok_no_match a k _ ha hp hka)]
      exact hrest

/-- A replace pass for a pattern that does not occur leaves the string
unchanged (used for the unrecognized / already-consumed keys). -/
theorem replAux_eq_self_of_not_contains (lit v : List Char) (s : List Char)
    (h : listContainsSub lit s = false) : replAux lit v s = s := by
  induction s with
  | nil => exact replAux_nil lit v
  | cons c cs ih =>
    rw [listContainsSub, Bool.or_eq_false_iff] at h
    rw [replAux, if_neg (by simp [h.1])]
    rw [ih h.2]

/-- Model validation: a `$&` in the replacement value reinserts the matched
token, as ECMAScript's `GetSubstitution` prescribes — for the valid,
brace-free project name `a$&b` the substitution pass turns the content
`{{projectName}}` into `a{{projectName}}b`, leaving a recognized token in
the output.  This is the program behavior that forces the `$`-free
hypothesis of the amended substitution claim. -/
theorem substituteAll_dollar_amp :
    substituteAll (replacementsFor "a$&b") "{{projectName}}" = "a{{projectName}}b" := by
  simp only [substituteAll, replacementsFor, List.foldl_cons, List.foldl_nil]
  have h1 : jsReplaceAll ("\x7b\x7b" ++ "projectName" ++ "\x7d\x7d") "a$&b"
      "{{projectName}}" = "a{{projectName}}b" := by
    rw [jsReplaceAll]
    have hl : (("\x7b\x7b" ++ "projectName" ++ "\x7d\x7d") : String).data =
        tokenOf "projectName".data := by decide
    have hc : ("{{projectName}}" : String).data = tokenOf "projectName".data ++ [] := by
      decide
    rw [hl, hc, replAuxSub_token_head _ _ _ _ _ (by decide), replAuxSub_nil,
      List.append_nil]
    decide
  rw [h1]
  have h2 : jsReplaceAll ("\x7b\x7b" ++ "projectNameSnake" ++ "\x7d\x7d")
      (toSnakeCase "a$&b") "a{{projectName}}b" = "a{{projectName}}b" := by
    rw [jsReplaceAll, replAuxSub_eq_replAux _ _ _ (by decide),
      replAux_eq_self_of_not_contains _ _ _ (by decide)]
  rw [h2]
  rw [jsReplaceAll, replAuxSub_eq_replAux _ _ _ (by decide),
    replAux_eq_self_of_not_contains _ _ _ (by decide)]

/-- The full `replacePlaceholders` loop over a hygienic rendering equals the
piece-level substitution, provided every key and every replacement value is
brace-free and every replacement value is `$`-free (so `GetSubstitution`
inserts it verbatim). -/
theorem substituteAll_renderPieces (repl : List (String × String)) (ps : List Piece)
    (hks : ∀ kv ∈ repl, braceFree kv.1.data = true)
    (hvs : ∀ kv ∈ repl, braceFree kv.2.data = true)
    (hds : ∀ kv ∈ repl, dollarFree kv.2.data = true)
    (hps : hygienic ps = true) :
    substituteAll repl ⟨renderPieces ps⟩ = ⟨renderPieces (substPieces repl ps)⟩ := by
  induction repl generalizing ps with
  | nil => simp [substituteAll, substPieces]
  | cons kv repl ih =>
    have hone : jsReplaceAll ("\x7b\x7b" ++ kv.1 ++ "\x7d\x7d") kv.2 ⟨renderPieces ps⟩ =
        ⟨renderPieces (ps.map (substPiece kv.1.data kv.2.data))⟩ := by
      rw [jsReplaceAll]
      rw [replAuxSub_eq_replAux _ _ _ (hds kv (List.mem_cons_self _ _))]
      have hdata : ("\x7b\x7b" ++ kv.1 ++ "\x7d\x7d").data = tokenOf kv.1.data := by
        simp [tokenOf, String.data_append]
      rw [hdata]
      rw [replAux_renderPieces kv.1.data kv.2.data
        (hks kv (List.mem_cons_self _ _)) ps hps]
    rw [substituteAll, List.foldl_cons]
    rw [hone]
    have := ih (ps.map (substPiece kv.1.data kv.2.data))
      (fun kv' h => hks kv' (List.mem_cons_of_mem _ h))
      (fun kv' h => hvs kv' (List.mem_cons_of_mem _ h))
      (fun kv' h => hds kv' (List.mem_cons_of_mem _ h))
      (hygienic_map_substPiece kv.1.data kv.2.data
        (hvs kv (List.mem_cons_self _ _)) hps)
    rw [substituteAll] at this
    rw [this]
    simp [substPieces]

theorem substPieces_replacementsFor (name : String) (ps : List Piece) :
    substPieces (replacementsFor name) ps = ps.map (applyReplacements name) := by
  simp only [substPieces, replacementsFor, List.foldl_cons, List.foldl_nil, List.map_map]
  apply List.map_congr_left
  intro p _
  cases p with
  | seg s => rfl
  | tok k =>
    by_cases h1 : k = "projectName".data
    · simp [Function.comp, substPiece, applyReplacements, h1]
    · by_cases h2 : k = "projectNameSnake".data
      · simp [Function.comp, substPiece, applyReplacements, h1, h2]
      · by_cases h3 : k = "projectNameKebab".data
        · simp [Function.comp, substPiece, applyReplacements, h1, h2, h3]
        · simp [Function.comp, substPiece, applyReplacements, h1, h2, h3]

theorem snake_guard_not_brace (c : Char)
    (h : (c.isLower || c.isDigit || c == '_') = true) :
    (!(c == '{') && !(c == '}')) = true := by
  by_cases h1 : c = '{'
  · subst h1; exact absurd h (by decide)
  · by_cases h2 : c = '}'
    · subst h2; exact absurd h (by decide)
    · simp [h1, h2]

theorem kebab_guard_not_brace (c : Char)
    (h : (c.isLower || c.isDigit || c == '-') = true) :
    (!(c == '{') && !(c == '}')) = true := by
  by_cases h1 : c = '{'
  · subst h1; exact absurd h (by decide)
  · by_cases h2 : c = '}'
    · subst h2; exact absurd h (by decide)
    · simp [h1, h2]

theorem braceFree_mapGuardSnake (l : List Char) :
    braceFree (l.map (fun c => if c.isLower || c.isDigit || c == '_' then c else '_')) = true := by
  rw [braceFree, List.all_eq_true]
  intro c hc
  obtain ⟨d, _, rfl⟩ := List.mem_map.mp hc
  by_cases hg : (d.isLower || d.isDigit || d == '_') = true
  · rw [if_pos hg]; exact snake_guard_not_brace d hg
  · rw [if_neg hg]; decide

theorem braceFree_mapGuardKebab (l : List Char) :
    braceFree (l.map (fun c => if c.isLower || c.isDigit || c == '-' then c else '-')) = true := by
  rw [braceFree, List.all_eq_true]
  intro c hc
  obtain ⟨d, _, rfl⟩ := List.mem_map.mp hc
  by_cases hg : (d.isLower || d.isDigit || d == '-') = true
  · rw [if_pos hg]; exact kebab_guard_not_brace d hg
  · rw [if_neg hg]; decide

/-- The derived snake-case name never contains a brace. -/
theorem braceFree_toSnakeCase (name : String) : braceFree (toSnakeCase name).data = true :=
  braceFree_mapGuardSnake _

/-- The derived kebab-case name never contains a brace. -/
theorem braceFree_toKebabCase (name : String) : braceFree (toKebabCase name).data = true :=
  braceFree_mapGuardKebab _

theorem snake_guard_not_dollar (c : Char)
    (h : (c.isLower || c.isDigit || c == '_') = true) : (!(c == '$')) = true := by
  by_cases h1 : c = '$'
  · subst h1; exact absurd h (by decide)
  · simp [h1]

theorem kebab_guard_not_dollar (c : Char)
    (h : (c.isLower || c.isDigit || c == '-') = true) : (!(c == '$')) = true := by
  by_cases h1 : c = '$'
  · subst h1; exact absurd h (by decide)
  · simp [h1]

theorem dollarFree_mapGuardSnake (l : List Char) :
    dollarFree (l.map (fun c => if c.isLower || c.isDigit || c == '_' then c else '_')) =
      true := by
  rw [dollarFree, List.all_eq_true]
  intro c hc
  obtain ⟨d, _, rfl⟩ := List.mem_map.mp hc
  by_cases hg : (d.isLower || d.isDigit || d == '_') = true
  · rw [if_pos hg]; exact snake_guard_not_dollar d hg
  · rw [if_neg hg]; decide

theorem dollarFree_mapGuardKebab (l : List Char) :
    dollarFree (l.map (fun c => if c.isLower || c.isDigit || c == '-' then c else '-')) =
      true := by
  rw [dollarFree, List.all_eq_true]
  intro c hc
  obtain ⟨d, _, rfl⟩ := List.mem_map.mp hc
  by_cases hg : (d.isLower || d.isDigit || d == '-') = true
  · rw [if_pos hg]; exact kebab_guard_not_dollar d hg
  · rw [if_neg hg]; decide

/-- The derived snake-case name never contains a `$`. -/
theorem dollarFree_toSnakeCase (name : String) : dollarFree (toSnakeCase name).data = true :=
  dollarFree_mapGuardSnake _

/-- The derived kebab-case name never contains a `$`. -/
theorem dollarFree_toKebabCase (name : String) : dollarFree (toKebabCase name).data = true :=
  dollarFree_mapGuardKebab _

theorem hygienic_substPieces (repl : List (String × String)) (ps : List Piece)
    (hvs : ∀ kv ∈ repl, braceFree kv.2.data = true) (hps : hygienic ps = true) :
    hygienic (substPieces repl ps) = true := by
  induction repl generalizing ps with
  | nil => simpa [substPieces] using hps
  | cons kv repl ih =>
    rw [substPieces, List.foldl_cons]
    have := ih (ps.map (substPiece kv.1.data kv.2.data))
      (fun kv' h => hvs kv' (List.mem_cons_of_mem _ h))
      (hygienic_map_substPiece kv.1.data kv.2.data
        (hvs kv (List.mem_cons_self _ _)) hps)
    rw [substPieces] at this
    exact this

/-- C3 amended: if the project name contains no brace and no `$` character
(so the replacement values are brace-free and are inserted verbatim by
ECMAScript's `GetSubstitution` — see `substituteAll_dollar_amp` for the
`$&` behavior that forces this) and the file content is well formed — it
decomposes into segments without `{{` and not ending in `{`, and `{{key}}`
tokens with brace-free keys — then the substitution pass (i) rewrites the
content by replacing every recognized token with its resolved value,
(ii) leaves every token whose key is not in the replacement map
byte-for-byte untouched, and (iii) leaves no recognized token in the
output. -/
theorem placeholder_substitution_complete (name : String) (ps : List Piece)
    (hname : braceFree name.data = true) (hdollar : dollarFree name.data = true)
    (hps : hygienic ps = true) :
    substituteAll (replacementsFor name) ⟨renderPieces ps⟩ =
      ⟨renderPieces (ps.map (applyReplacements name))⟩ ∧
    (∀ k, Piece.tok k ∈ ps →
      k ≠ "projectName".data → k ≠ "projectNameSnake".data → k ≠ "projectNameKebab".data →
      Piece.tok k ∈ ps.map (applyReplacements name)) ∧
    (∀ key ∈ recognizedKeys,
      listContainsSub (tokenOf key.data)
        (substituteAll (replacementsFor name) ⟨renderPieces ps⟩).data = false) := by
  have hks : ∀ kv ∈ replacementsFor name, braceFree kv.1.data = true := by
    intro kv hkv
    simp only [replacementsFor, List.mem_cons, List.not_mem_nil, or_false] at hkv
    rcases hkv with rfl | rfl | rfl
    · exact (by decide : braceFree ("projectName" : String).data = true)
    · exact (by decide : braceFree ("projectNameSnake" : String).data = true)
    · exact (by decide : braceFree ("projectNameKebab" : String).data = true)
  have hvs : ∀ kv ∈ replacementsFor name, braceFree kv.2.data = true := by
    intro kv hkv
    simp only [replacementsFor, List.mem_cons, List.not_mem_nil, or_false] at hkv
    rcases hkv with rfl | rfl | rfl
    · exact hname
    · exact braceFree_toSnakeCase name
    · exact braceFree_toKebabCase name
  have hds : ∀ kv ∈ replacementsFor name, dollarFree kv.2.data = true := by
    intro kv hkv
    simp only [replacementsFor, List.mem_cons, List.not_mem_nil, or_false] at hkv
    rcases hkv with rfl | rfl | rfl
    · exact hdollar
    · exact dollarFree_toSnakeCase name
    · exact dollarFree_toKebabCase name
  have hmain : substituteAll (replacementsFor name) ⟨renderPieces ps⟩ =
      ⟨renderPieces (ps.map (applyReplacements name))⟩ := by
    rw [substituteAll_renderPieces (replacementsFor name) ps hks hvs hds hps,
      substPieces_replacementsFor]
  refine ⟨hmain, ?_, ?_⟩
  · intro k hk h1 h2 h3
    have : applyReplacements name (Piece.tok k) = Piece.tok k := by
      rw [applyReplacements, if_neg h1, if_neg h2, if_neg h3]
    exact this ▸ List.mem_map_of_mem (applyReplacements name) hk
  · intro key hkey
    rw [hmain]
    have hfin : hygienic (ps.map (applyReplacements name)) = true := by
      rw [← substPieces_replacementsFor]
      exact hygienic_substPieces (replacementsFor name) ps hvs hps
    have hkeybf : braceFree key.data = true := by
      simp only [recognizedKeys, List.mem_cons, List.not_mem_nil, or_false] at hkey
      rcases hkey with rfl | rfl | rfl <;> decide
    apply no_token_occurrence key.data hkeybf _ hfin
    intro k' hk'
    obtain ⟨p, hp, he⟩ := List.mem_map.mp hk'
    cases p with
    | seg s => simp [applyReplacements] at he
    | tok k0 =>
      rw [applyReplacements] at he
      by_cases h1 : k0 = "projectName".data
      · rw [if_pos h1] at he; cases he
      · rw [if_neg h1] at he
        by_cases h2 : k0 = "projectNameSnake".data
        · rw [if_pos h2] at he; cases he
        · rw [if_neg h2] at he
          by_cases h3 : k0 = "projectNameKebab".data
          · rw [if_pos h3] at he; cases he
          · rw [if_neg h3] at he
            cases he
            simp only [recognizedKeys, List.mem_cons, List.not_mem_nil, or_false] at hkey
            rcases hkey with rfl | rfl | rfl
            · exact h1
            · exact h2
            · exact h3

/-- Witness for C3 (amended): a content mixing segments, all three
recognized tokens and an unrecognized token, substituted for the name
`MyApp`. -/
theorem placeholder_substitution_complete_witness :
    substituteAll (replacementsFor "MyApp")
        ⟨renderPieces [Piece.seg "# ".data, Piece.tok "projectName".data,
          Piece.seg " / ".data, Piece.tok "projectNameSnake".data,
          Piece.seg " / ".data, Piece.tok "projectNameKebab".data,
          Piece.seg " / ".data, Piece.tok "unknownKey".data]⟩ =
      ⟨renderPieces ([Piece.seg "# ".data, Piece.tok "projectName".data,
          Piece.seg " / ".data, Piece.tok "projectNameSnake".data,
          Piece.seg " / ".data, Piece.tok "projectNameKebab".data,
          Piece.seg " / ".data, Piece.tok "unknownKey".data].map
        (applyReplacements "MyApp"))⟩ ∧
    listContainsSub (tokenOf "projectName".data)
      (substituteAll (replacementsFor "MyApp")
        ⟨renderPieces [Piece.seg "# ".data, Piece.tok "projectName".data,
          Piece.seg " / ".data, Piece.tok "projectNameSnake".data,
          Piece.seg " / ".data, Piece.tok "projectNameKebab".data,
          Piece.seg " / ".data, Piece.tok "unknownKey".data]⟩).data = false :=
  ⟨(placeholder_substitution_complete "MyApp" _ (by decide) (by decide) (by decide)).1,
   (placeholder_substitution_complete "MyApp" _ (by decide) (by decide) (by decide)).2.2
     "projectName" (by rw [recognizedKeys]; exact List.mem_cons_self _ _)⟩

/-- Counterexample to C3 as stated: `"{{projectName}}"` is itself a valid
project name, and running the substitution pass with it over a file whose
content is the token `{{projectName}}` replaces the token with that value —
reproducing the token, so a recognized token remains in the output. -/
theorem placeholder_substitution_counterexample :
    validateProjectName "{{projectName}}" = true ∧
    substituteAll (replacementsFor "{{projectName}}") "{{projectName}}" =
      "{{projectName}}" ∧
    listContainsSub (tokenOf "projectName".data)
      (substituteAll (replacementsFor "{{projectName}}") "{{projectName}}").data = true := by
  have hmid : substituteAll (replacementsFor "{{projectName}}") "{{projectName}}" =
      "{{projectName}}" := by
    simp only [substituteAll, replacementsFor, List.foldl_cons, List.foldl_nil]
    have h1 : jsReplaceAll ("\x7b\x7b" ++ "projectName" ++ "\x7d\x7d") "{{projectName}}"
        "{{projectName}}" = "{{projectName}}" := by
      rw [jsReplaceAll]
      rw [replAuxSub_eq_replAux _ _ _ (by decide)]
      have hl : ("\x7b\x7b" ++ "projectName" ++ "\x7d\x7d").data = tokenOf "projectName".data := by decide
      have hc : ("{{projectName}}" : String).data = tokenOf "projectName".data ++ [] := by
        decide
      rw [hl, hc, replAux_token_head _ _ _ (by decide), replAux_nil, List.append_nil, ← hc]
    rw [h1]
    have h2 : jsReplaceAll ("\x7b\x7b" ++ "projectNameSnake" ++ "\x7d\x7d")
        (toSnakeCase "{{projectName}}") "{{projectName}}" = "{{projectName}}" := by
      rw [jsReplaceAll, replAuxSub_eq_replAux _ _ _ (by decide),
        replAux_eq_self_of_not_contains _ _ _ (by decide)]
    rw [h2]
    rw [jsReplaceAll, replAuxSub_eq_replAux _ _ _ (by decide),
      replAux_eq_self_of_not_contains _ _ _ (by decide)]
  exact ⟨by decide, hmid, by rw [hmid]; decide⟩

/-- C4.  With the template present, generation against an already-existing
target path fails with the target-exists error whatever the options are,
and no filesystem write happens in such a run (the written-paths component
is empty: both existence checks precede the first write). -/
theorem generate_rejects_existing_target (templatePath targetPathArg : String)
    (templateFiles : List String) (opts : ProjectOptions) :
    generateRun true true templatePath targetPathArg templateFiles opts =
      ([], some ("Directory " ++ targetPathArg ++ " already exists")) := rfl

/-- Counterexample to C5 as stated: a run in which every file write of the
substitution pass fails nevertheless completes successfully (the `catch`
inside `replacePlaceholders` swallows write errors as well as read errors);
the file is left with its unsubstituted content. -/
theorem io_failure_counterexample :
    generateFallible true false "templates/python/fastapi" "my-app" none (fun _ => none)
        (fun _ => none) (fun _ => some "EACCES: permission denied")
        [("README.md", "# {{projectName}}")] (replacementsFor "my-app") {} =
      Except.ok [("README.md", "# {{projectName}}")] := rfl

/-- C5 amended: an I/O failure during the template copy or during any
conditional-file write aborts the run and surfaces the underlying error
(the first failure wins; partial output may remain on disk), while
read/write failures inside the placeholder-substitution pass are caught per
file and skipped — the pass never causes `generate` to reject. -/
theorem io_failure_propagation (templatePath targetPathArg : String)
    (copyErr : Option String) (writeErr substReadErr substWriteErr : String → Option String)
    (files : List (String × String)) (repl : List (String × String))
    (opts : ProjectOptions) :
    (∀ e, copyErr = some e →
      generateFallible true false templatePath targetPathArg copyErr writeErr
        substReadErr substWriteErr files repl opts = Except.error e) ∧
    (∀ e, copyErr = none →
      firstWriteError writeErr (generateOptionalFilesPaths opts) = some e →
      generateFallible true false templatePath targetPathArg copyErr writeErr
        substReadErr substWriteErr files repl opts = Except.error e) ∧
    (copyErr = none →
      firstWriteError writeErr (generateOptionalFilesPaths opts) = none →
      generateFallible true false templatePath targetPathArg copyErr writeErr
        substReadErr substWriteErr files repl opts =
        Except.ok (replacePlaceholdersPass substReadErr substWriteErr repl files)) := by
  refine ⟨?_, ?_, ?_⟩
  · rintro e rfl
    rfl
  · rintro e rfl hw
    simp [generateFallible, hw]
  · rintro rfl hw
    simp [generateFallible, hw]

/-- Witness for C5 (amended): a failing template copy surfaces its error. -/
theorem io_failure_propagation_witness :
    generateFallible true false "templates/python/fastapi" "my-app" (some "EIO: i/o error")
        (fun _ => none) (fun _ => none) (fun _ => none) [] [] {} =
      Except.error "EIO: i/o error" :=
  (io_failure_propagation "templates/python/fastapi" "my-app" (some "EIO: i/o error")
    (fun _ => none) (fun _ => none) (fun _ => none) [] [] {}).1 "EIO: i/o error" rfl

end Trixo
